import Mathlib

/-!
Shallow embedding of the Google-Trends spreadsheet client (`src/main.py`,
a Google Apps Script program) and proofs about its specification claims.

JavaScript numbers are modelled as rationals (`ℚ`); all inputs appearing in
concrete witnesses and counterexamples are exactly representable as binary64
floats, so the rational arithmetic agrees with the JavaScript arithmetic
there.  JavaScript objects (used as keyword → series maps) are modelled as
insertion-ordered association lists, matching `Object.keys` enumeration
order.  Side effects on the spreadsheet are modelled as explicit traces of
write events, and sleeps performed by the retry loop as traces of sleep
events.
-/

namespace GTrends

/-- JavaScript `Math.round`: round half toward positive infinity. -/
def jsRound (q : ℚ) : ℤ := ⌊q + 1 / 2⌋

/-- `calculateAverage` (src/main.py lines 616-620): sum of the entries
divided by the length, `0` for an empty (or absent) array. -/
def calculateAverage (l : List ℚ) : ℚ :=
  if l = [] then 0 else l.sum / l.length

/-- A fetched/normalized series: the `dates` index (timestamps) and the
keyword → score-sequence map, in JavaScript key-insertion order. -/
structure TrendSeries where
  dates : List ℤ
  keywords : List (String × List ℚ)
deriving DecidableEq, Repr

/-- JavaScript property lookup `obj[k]` on the keyword map: first binding
of the key, `none` when the key is absent (`undefined`). -/
def alookup (k : String) : List (String × List ℚ) → Option (List ℚ)
  | [] => none
  | (a, v) :: t => if a = k then some v else alookup k t

/-- One record of the server's JSON `data` array: the `date` (or `index`)
field and the remaining keyword-valued fields in key order. -/
structure RawRecord where
  date : ℤ
  fields : List (String × ℚ)
deriving DecidableEq, Repr

/-- Field lookup `record[keyword]` on a raw record. -/
def fieldLookup (k : String) : List (String × ℚ) → Option ℚ
  | [] => none
  | (a, v) :: t => if a = k then some v else fieldLookup k t

/-- `processResponse` (src/main.py lines 481-494): keyword names come from
the first record's non-date fields; each keyword's series maps every record
to its value for that keyword, with `|| 0` turning an absent field into `0`.
On an empty `data` array the original throws (`records[0]` is `undefined`),
modelled as `none`. -/
def processResponse (records : List RawRecord) : Option TrendSeries :=
  match records with
  | [] => none
  | first :: _ =>
    let keywords := first.fields.map Prod.fst
    some { dates := records.map (·.date),
           keywords := keywords.map fun kw =>
             (kw, records.map fun r => (fieldLookup kw r.fields).getD 0) }

/-- The persisted data-info descriptor (hidden cells H6:J6):
`{lastColumn, baseAverage, dataRows}`. -/
structure DataInfo where
  lastColumn : ℤ
  baseAverage : ℚ
  dataRows : ℤ
deriving DecidableEq, Repr

/-- `normalizeData` (src/main.py lines 499-534): fails when the fresh series
lacks the base keyword or when the base keyword's mean is zero; otherwise
constant-fills the base keyword with `Math.round(existingBaseAvg)` and
multiplies every other keyword's values by
`existingBaseAvg / newBaseAvg`, rounding each product. -/
def normalizeData (newData : TrendSeries) (existingInfo : DataInfo)
    (baseKeyword : String) : Except String TrendSeries :=
  match alookup baseKeyword newData.keywords with
  | none => .error "新データに基準キーワードが含まれていません"
  | some baseVals =>
    let newBaseAvg := calculateAverage baseVals
    if newBaseAvg = 0 then
      .error "新データの基準キーワード平均値が0です"
    else
      let scalingFactor := existingInfo.baseAverage / newBaseAvg
      .ok { dates := newData.dates,
            keywords := newData.keywords.map fun kv =>
              if kv.1 = baseKeyword then
                (kv.1, kv.2.map fun _ => ((jsRound existingInfo.baseAverage : ℤ) : ℚ))
              else
                (kv.1, kv.2.map fun v => ((jsRound (v * scalingFactor) : ℤ) : ℚ)) }

/-- A user configuration as read by `readConfiguration` /
`readPreviousConfigFromSheet`: keyword list, start/end dates as
millisecond timestamps (`none` when the cell is empty), frequency string,
and the base keyword (`keywords[0]`, `none` when there are no keywords). -/
structure Config where
  keywords : List String
  startDate : Option ℤ
  endDate : Option ℤ
  frequency : String
  baseKeyword : Option String
deriving DecidableEq, Repr

/-- The day span computed by `validateConfig` (src/main.py line 301):
`Math.ceil((end - start) / (1000*60*60*24))` on millisecond timestamps. -/
def daysDiff (s e : ℤ) : ℤ :=
  ⌈(((e - s : ℤ) : ℚ) / (1000 * 60 * 60 * 24))⌉

/-- `validateConfig` (src/main.py lines 285-317): rejects an empty or
longer-than-4 keyword list, a missing date, an unknown frequency, and a
frequency-specific span violation measured in ceil-days. -/
def validateConfig (config : Config) : Bool :=
  if config.keywords = [] then false
  else if 4 < config.keywords.length then false
  else
    match config.startDate, config.endDate with
    | some s, some e =>
      if config.frequency ∉ ["daily", "weekly", "monthly"] then false
      else if config.frequency = "daily" ∧ 270 < daysDiff s e then false
      else if config.frequency = "weekly" ∧ daysDiff s e < 7 then false
      else if config.frequency = "monthly" ∧ daysDiff s e < 30 then false
      else true
    | _, _ => false

/-- Execution mode returned by `determineMode`. -/
inductive Mode
  | NEW
  | EXPAND
  | SAME
deriving DecidableEq, Repr

/-- JavaScript `Array.prototype.sort()` on a string array: sort into
lexicographic order. -/
def sortStrings (l : List String) : List String :=
  List.insertionSort (· ≤ ·) l

/-- `determineMode` (src/main.py lines 322-345): `NEW` when there is no
previous config, the base keyword changed, or a date/frequency changed;
`EXPAND` when the sorted non-base keyword lists differ; `SAME` otherwise. -/
def determineMode (current : Config) (previous : Option Config) : Mode × String :=
  match previous with
  | none => (Mode.NEW, "初回実行")
  | some prev =>
    if current.baseKeyword ≠ prev.baseKeyword then
      (Mode.NEW, "基準キーワード（B2）が変更されました")
    else if current.startDate ≠ prev.startDate ∨ current.endDate ≠ prev.endDate ∨
        current.frequency ≠ prev.frequency then
      (Mode.NEW, "日付または期間が変更されました")
    else
      let currentOthers := sortStrings (current.keywords.drop 1)
      let previousOthers := sortStrings (prev.keywords.drop 1)
      if currentOthers ≠ previousOthers then
        (Mode.EXPAND, "キーワード（C2-E2）が変更されました - 横展開実行")
      else
        (Mode.SAME, "設定に変更なし")

/-- Modelled from the spec (claim C2's decision table): the mode decision
with the fourth step phrased as an order-insensitive *set* comparison of the
non-base keywords, to be compared against `determineMode`. -/
def determineModeSpec (current : Config) (previous : Option Config) : Mode :=
  match previous with
  | none => Mode.NEW
  | some prev =>
    if current.baseKeyword ≠ prev.baseKeyword then Mode.NEW
    else if current.startDate ≠ prev.startDate ∨ current.endDate ≠ prev.endDate ∨
        current.frequency ≠ prev.frequency then Mode.NEW
    else if (current.keywords.drop 1).toFinset ≠ (prev.keywords.drop 1).toFinset then
      Mode.EXPAND
    else Mode.SAME

/-- Whether the main entry point `fetchGoogleTrendsData`
(src/main.py lines 14-67) reaches a mode whose handler calls the API:
it returns early when the server is not ready or validation fails;
`NEW` and `EXPAND` handlers fetch; `SAME` fetches only when the user
confirms a rerun. -/
def fetchInvoked (serverReady : Bool) (config : Config) (previous : Option Config)
    (rerunChoice : Bool) : Bool :=
  if !serverReady then false
  else if !validateConfig config then false
  else
    match (determineMode config previous).1 with
    | Mode.NEW => true
    | Mode.EXPAND => true
    | Mode.SAME => rerunChoice

/-- A spreadsheet cell value written by the output writer: a formatted
date (`formatDate` applied to a timestamp), or a number. -/
inductive Cell
  | dateCell (t : ℤ)
  | num (q : ℚ)
deriving DecidableEq, Repr

/-- One observable spreadsheet write, in program order.  `headerWrite` and
`valuesWrite` are the two `setValues` calls of `outputData` into the data
region (rows ≥ 8); `clearData` is `clearDataArea`; `saveConfig` writes the
hidden config row B6:F6; `dataInfoWrite` writes the hidden data-info row
H6:J6 (both `saveDataInfoToSheet` and `updateDataInfoInSheet`). -/
inductive WriteEvent
  | clearData
  | headerWrite (startCol : ℤ) (headers : List String)
  | valuesWrite (startCol : ℤ) (numCols : ℕ) (rows : List (List Cell))
  | saveConfig (c : Config)
  | dataInfoWrite (info : DataInfo)
deriving DecidableEq, Repr

/-- `outputData` (src/main.py lines 539-583) as a list of write events.
In expansion mode the headers are the keywords *after the first key*
(`keywords.slice(1)`) and each row holds their scores; otherwise a date
column plus every keyword.  Nothing is written when there are no headers;
the values block is written only when there is at least one row. -/
def outputWrites (data : TrendSeries) (startColumn : ℤ) (isExpansion : Bool) :
    List WriteEvent :=
  let keywords := data.keywords.map Prod.fst
  let headersRows : List String × List (List Cell) :=
    if isExpansion then
      let nonBaseKeywords := keywords.drop 1
      (nonBaseKeywords,
       (List.range data.dates.length).map fun i =>
         nonBaseKeywords.map fun kw =>
           Cell.num (((alookup kw data.keywords).getD []).getD i 0))
    else
      ("日付" :: keywords,
       (List.range data.dates.length).map fun i =>
         Cell.dateCell (data.dates.getD i 0) ::
           keywords.map fun kw =>
             Cell.num (((alookup kw data.keywords).getD []).getD i 0))
  let headers := headersRows.1
  let dataToWrite := headersRows.2
  if headers = [] then []
  else
    [WriteEvent.headerWrite startColumn headers] ++
      (if dataToWrite = [] then []
       else [WriteEvent.valuesWrite startColumn headers.length dataToWrite])

/-- The data-info row written by `saveDataInfoToSheet`
(src/main.py lines 246-260): `[keywordCount + 1, mean of the base series, row count]`
(a missing base keyword contributes an empty series, whose mean is `0`). -/
def savedDataInfo (data : TrendSeries) (baseKeyword : Option String) : DataInfo :=
  { lastColumn := (data.keywords.map Prod.fst).length + 1,
    baseAverage := calculateAverage ((baseKeyword.bind (alookup · data.keywords)).getD []),
    dataRows := data.dates.length }

/-- The data-info row written by `updateDataInfoInSheet`
(src/main.py lines 602-611): last column moves to
`newStartColumn + (#keys − 1) − 1`; base average and row count copied from
the existing info. -/
def updatedDataInfo (existing : DataInfo) (newData : TrendSeries)
    (newStartColumn : ℤ) : DataInfo :=
  { lastColumn := newStartColumn + ((newData.keywords.map Prod.fst).drop 1).length - 1,
    baseAverage := existing.baseAverage,
    dataRows := existing.dataRows }

/-- `executeNewAnalysis` (src/main.py lines 350-365) as a trace of write
events plus an outcome.  The fetch result is passed in (`fetchFromAPI` is
modelled separately); the data area is cleared before the fetch, so a fetch
failure leaves a cleared table and no other writes. -/
def executeNewAnalysis (fetched : Except String TrendSeries) (config : Config) :
    List WriteEvent × Except String Unit :=
  match fetched with
  | .error e => ([WriteEvent.clearData], .error e)
  | .ok data =>
    ([WriteEvent.clearData] ++ outputWrites data 1 false ++
       [WriteEvent.saveConfig config,
        WriteEvent.dataInfoWrite (savedDataInfo data config.baseKeyword)],
     .ok ())

/-- `executeExpansion` (src/main.py lines 370-402) as a trace of write
events plus an outcome: read the existing data info (error when absent),
fetch (result passed in), renormalize, then write the new columns starting
at `lastColumn + 1`, update the data info, and save the config.  Any error
before the first write leaves an empty trace; the interactive fallback to a
new analysis on error is a separate user-approved run and not part of this
trace.  An absent `baseKeyword` (`null` in the original) makes the base
lookup miss, modelled directly as the missing-base error. -/
def executeExpansion (existingInfo : Option DataInfo)
    (fetched : Except String TrendSeries) (current : Config) :
    List WriteEvent × Except String Unit :=
  match existingInfo with
  | none => ([], .error "既存データが見つかりません。新規分析として実行します。")
  | some info =>
    match fetched with
    | .error e => ([], .error e)
    | .ok newData =>
      match current.baseKeyword with
      | none => ([], .error "新データに基準キーワードが含まれていません")
      | some base =>
        match normalizeData newData info base with
        | .error e => ([], .error e)
        | .ok normalized =>
          let nextCol := info.lastColumn + 1
          (outputWrites normalized nextCol true ++
             [WriteEvent.dataInfoWrite (updatedDataInfo info normalized nextCol),
              WriteEvent.saveConfig current],
           .ok ())

/-- What one `UrlFetchApp.fetch` of the trend API can produce: a `200`
response with a parsed `data` array, another HTTP status code, or a thrown
network error. -/
inductive ApiResponse
  | ok (records : List RawRecord)
  | status (code : ℕ)
  | netError (msg : String)
deriving DecidableEq, Repr

/-- Observable events of one `fetchFromAPI` run, in program order: the
pre-attempt exponential-backoff sleep, the cold-start jitter sleep, the API
call itself, the rate-limit cooldown sleep, and the server-error recovery
sleep.  Durations are in seconds. -/
inductive FetchEvent
  | sleepBackoff (sec : ℚ)
  | sleepCold (sec : ℚ)
  | apiCall (attempt : ℕ)
  | sleepRateLimit (sec : ℚ)
  | sleepServer (sec : ℚ)
deriving DecidableEq, Repr

/-- The cold-start delay slept before every attempt
(src/main.py line 424): `rand*10 + 5` on the first attempt, `rand*5 + 3`
afterwards, where `rand` is that attempt's `Math.random()` draw. -/
def coldDelay (rand : ℕ → ℚ) (attempt : ℕ) : ℚ :=
  if attempt = 1 then rand attempt * 10 + 5 else rand attempt * 5 + 3

/-- The message stored in `lastError` when an attempt fails
(src/main.py lines 448-472): a parse failure on an empty `200` body throws
a `TypeError`; `429` and `500` store fixed messages; any other status
throws an `API Error`; a thrown fetch error is stored as-is. -/
def classifyErr : ApiResponse → String
  | .ok _ => "TypeError"
  | .status code =>
    if code = 429 then "Rate limit exceeded"
    else if code = 500 then "Server internal error"
    else "API Error (" ++ toString code ++ ")"
  | .netError msg => msg

/-- The error thrown after the loop exhausts its attempts
(src/main.py line 475). -/
def exhaustMsg (maxRetries : ℕ) (lastError : Option String) : String :=
  "API呼び出し失敗 (" ++ toString maxRetries ++ "回試行): " ++
    lastError.getD "Unknown error"

/-- What a `200` attempt yields after `processResponse`, `none` for any
failing attempt. -/
def stepResult (r : ApiResponse) : Option TrendSeries :=
  match r with
  | .ok records => processResponse records
  | _ => none

/-- The sleeps preceding one attempt's API call: the exponential backoff
(`2^(attempt-1) * 15` seconds, from the second attempt on) and the
cold-start jitter, then the call itself. -/
def preEvents (rand : ℕ → ℚ) (attempt : ℕ) : List FetchEvent :=
  (if 1 < attempt then [FetchEvent.sleepBackoff ((2 : ℚ) ^ (attempt - 1) * 15)]
   else []) ++
    [FetchEvent.sleepCold (coldDelay rand attempt), FetchEvent.apiCall attempt]

/-- The sleep performed after a failed attempt and before the next loop
iteration: the long rate-limit cooldown after a `429`, the server-recovery
wait after a `500` (both skipped on the final attempt), nothing otherwise. -/
def postEvents (maxRetries attempt : ℕ) : ApiResponse → List FetchEvent
  | ApiResponse.status code =>
    if code = 429 then
      (if attempt < maxRetries then [FetchEvent.sleepRateLimit 120] else [])
    else if code = 500 then
      (if attempt < maxRetries then [FetchEvent.sleepServer 60] else [])
    else []
  | _ => []

/-- The retry loop of `fetchFromAPI` (src/main.py lines 407-476), indexed
by the remaining attempt budget (`fuel`), the 1-based attempt number, and
the accumulated `lastError`.  Each iteration performs `preEvents`, then on
failure `postEvents` and the next iteration; exhaustion throws the wrapped
last error. -/
def fetchLoop (op : ℕ → ApiResponse) (rand : ℕ → ℚ) (maxRetries : ℕ) :
    ℕ → ℕ → Option String → List FetchEvent × Except String TrendSeries
  | 0, _, lastError => ([], .error (exhaustMsg maxRetries lastError))
  | fuel + 1, attempt, _ =>
    match stepResult (op attempt) with
    | some series => (preEvents rand attempt, .ok series)
    | none =>
      let lastError := some (classifyErr (op attempt))
      let next := fetchLoop op rand maxRetries fuel (attempt + 1) lastError
      (preEvents rand attempt ++ postEvents maxRetries attempt (op attempt) ++ next.1,
       next.2)

/-- `fetchFromAPI` (src/main.py lines 407-476): the retry loop run with
`maxRetries = 4`, starting at attempt 1 with no recorded error. -/
def fetchFromAPI (op : ℕ → ApiResponse) (rand : ℕ → ℚ) :
    List FetchEvent × Except String TrendSeries :=
  fetchLoop op rand 4 4 1 none

/-- The retry loop run with a configurable attempt budget (the source fixes
`maxRetries = 4`; claims quantify over the budget). -/
def fetchWithRetry (op : ℕ → ApiResponse) (rand : ℕ → ℚ) (maxRetries : ℕ) :
    List FetchEvent × Except String TrendSeries :=
  fetchLoop op rand maxRetries maxRetries 1 none

/-- Number of API calls recorded in a fetch trace. -/
def apiCalls (t : List FetchEvent) : ℕ :=
  (t.filter fun e => match e with | FetchEvent.apiCall _ => true | _ => false).length

/-- The events strictly between the `k`-th and the `(k+1)`-th API call of a
trace: what the controller does between two consecutive attempts. -/
def betweenCalls (t : List FetchEvent) (k : ℕ) : List FetchEvent :=
  ((t.dropWhile fun e => decide (e ≠ FetchEvent.apiCall k)).drop 1).takeWhile
    fun e => decide (e ≠ FetchEvent.apiCall (k + 1))

/-- All header names written by a trace's header writes, in order. -/
def writtenHeaders : List WriteEvent → List String
  | [] => []
  | WriteEvent.headerWrite _ hs :: t => hs ++ writtenHeaders t
  | WriteEvent.clearData :: t => writtenHeaders t
  | WriteEvent.valuesWrite _ _ _ :: t => writtenHeaders t
  | WriteEvent.saveConfig _ :: t => writtenHeaders t
  | WriteEvent.dataInfoWrite _ :: t => writtenHeaders t

/-- The mean of a nonempty list, with the emptiness test discharged. -/
theorem calculateAverage_cons (a : ℚ) (l : List ℚ) :
    calculateAverage (a :: l) = (a + l.sum) / (l.length + 1) := by
  simp [calculateAverage]

/-- C1.  Corrected form: the renormalized series keeps every keyword in
place; the base keyword's values are constant-filled with
`round(existingInfo.baseAverage)` — not with `baseAverage` itself — and
every other value `v` becomes `round(v * baseAverage / mean(fresh base))`. -/
theorem normalizeData_formula (d : TrendSeries) (info : DataInfo) (base : String)
    (vs : List ℚ) (hvs : alookup base d.keywords = some vs)
    (hnz : calculateAverage vs ≠ 0) :
    normalizeData d info base =
      .ok { dates := d.dates,
            keywords := d.keywords.map fun kv =>
              if kv.1 = base then
                (kv.1, kv.2.map fun _ => ((jsRound info.baseAverage : ℤ) : ℚ))
              else
                (kv.1, kv.2.map fun v =>
                  ((jsRound (v * (info.baseAverage / calculateAverage vs)) : ℤ) : ℚ)) } := by
  unfold normalizeData
  rw [hvs]
  simp [hnz]

/-- C1 witness: with `baseAverage = 50` and a fresh base mean of `25`, the
base column becomes constantly `50` and the non-base values `3, 7` are
doubled to `6, 14`. -/
theorem normalizeData_formula_witness :
    alookup "base" [("base", [30, 20]), ("x", [3, 7])] = some [30, 20] ∧
    calculateAverage [30, 20] ≠ 0 ∧
    normalizeData ⟨[0, 1], [("base", [30, 20]), ("x", [3, 7])]⟩ ⟨3, 50, 2⟩ "base" =
      .ok ⟨[0, 1], [("base", [50, 50]), ("x", [6, 14])]⟩ := by
  have h1 : alookup "base" [("base", ([30, 20] : List ℚ)), ("x", [3, 7])] = some [30, 20] := by
    simp [alookup]
  have havg : calculateAverage ([30, 20] : List ℚ) = 25 := by
    rw [calculateAverage_cons]; norm_num
  have h2 : calculateAverage ([30, 20] : List ℚ) ≠ 0 := by
    rw [havg]; norm_num
  refine ⟨h1, h2, ?_⟩
  rw [normalizeData_formula ⟨[0, 1], [("base", [30, 20]), ("x", [3, 7])]⟩ ⟨3, 50, 2⟩
    "base" [30, 20] h1 h2, havg]
  norm_num [jsRound, List.replicate]
  all_goals decide

/-- C1 counterexample: a fresh series containing the base keyword with
nonzero mean, and a (float-representable) `baseAverage = 1/2`, for which
the renormalized base value is `round(1/2) = 1 ≠ 1/2`: the base column does
not equal `baseAverage` exactly. -/
theorem normalizeData_constant_fill_cex :
    calculateAverage [1] ≠ 0 ∧
    normalizeData ⟨[0], [("base", [1]), ("x", [1])]⟩ ⟨2, 1 / 2, 1⟩ "base" =
      .ok ⟨[0], [("base", [1]), ("x", [1])]⟩ ∧
    ¬ ((1 : ℚ) = 1 / 2) := by
  refine ⟨by rw [calculateAverage_cons]; norm_num, ?_, by norm_num⟩
  norm_num [normalizeData, alookup, calculateAverage_cons, jsRound, List.replicate]

/-- C4.  `normalizeData` fails exactly when the fresh series lacks the base
keyword or the base keyword's mean is zero; and when it fails, the
expansion run performs no spreadsheet writes at all. -/
theorem normalizeData_error_iff :
    (∀ (d : TrendSeries) (info : DataInfo) (base : String),
        (∃ e, normalizeData d info base = .error e) ↔
          alookup base d.keywords = none ∨
            ∃ vs, alookup base d.keywords = some vs ∧ calculateAverage vs = 0) ∧
    (∀ (info : DataInfo) (d : TrendSeries) (cfg : Config) (b e : String),
        cfg.baseKeyword = some b →
        normalizeData d info b = .error e →
        (executeExpansion (some info) (.ok d) cfg).1 = []) := by
  constructor
  · intro d info base
    unfold normalizeData
    cases h : alookup base d.keywords with
    | none => simp
    | some vs =>
      by_cases hz : calculateAverage vs = 0 <;> simp [hz]
  · intro info d cfg b e hb he
    simp only [executeExpansion, hb, he]

/-- C4 witness: a fresh series whose base mean is zero makes
`normalizeData` fail, and the expansion run with that series writes
nothing. -/
theorem normalizeData_error_iff_witness :
    (∃ e, normalizeData ⟨[0], [("base", [0])]⟩ ⟨2, 50, 1⟩ "base" = .error e) ∧
    (⟨["base"], some 0, some 1, "weekly", some "base"⟩ : Config).baseKeyword = some "base" ∧
    normalizeData ⟨[0], [("base", [0])]⟩ ⟨2, 50, 1⟩ "base" =
      .error "新データの基準キーワード平均値が0です" ∧
    (executeExpansion (some ⟨2, 50, 1⟩) (.ok ⟨[0], [("base", [0])]⟩)
        ⟨["base"], some 0, some 1, "weekly", some "base"⟩).1 = [] := by
  have he : normalizeData ⟨[0], [("base", [(0 : ℚ)])]⟩ ⟨2, 50, 1⟩ "base" =
      .error "新データの基準キーワード平均値が0です" := by
    norm_num [normalizeData, alookup, calculateAverage]
  refine ⟨?_, rfl, he, ?_⟩
  · exact (normalizeData_error_iff.1 ⟨[0], [("base", [0])]⟩ ⟨2, 50, 1⟩ "base").mpr
      (Or.inr ⟨[0], by simp [alookup], by norm_num [calculateAverage]⟩)
  · exact normalizeData_error_iff.2 ⟨2, 50, 1⟩ ⟨[0], [("base", [0])]⟩
      ⟨["base"], some 0, some 1, "weekly", some "base"⟩ "base" _ rfl he

/-- C9.  A parsed response always satisfies the length invariant (every
keyword's series is as long as the date index), and renormalization keeps
the dates unchanged and preserves the invariant. -/
theorem series_length_invariant :
    (∀ (records : List RawRecord) (s : TrendSeries),
        processResponse records = some s →
        ∀ p ∈ s.keywords, p.2.length = s.dates.length) ∧
    (∀ (d : TrendSeries) (info : DataInfo) (base : String) (out : TrendSeries),
        normalizeData d info base = .ok out →
        out.dates = d.dates ∧
          ((∀ p ∈ d.keywords, p.2.length = d.dates.length) →
            ∀ p ∈ out.keywords, p.2.length = out.dates.length)) := by
  constructor
  · intro records s hs
    cases records with
    | nil => simp [processResponse] at hs
    | cons first rest =>
      simp only [processResponse, Option.some.injEq] at hs
      subst hs
      intro p hp
      simp only [List.mem_map] at hp
      obtain ⟨kw, _, rfl⟩ := hp
      simp
  · intro d info base out hout
    unfold normalizeData at hout
    cases h : alookup base d.keywords with
    | none => rw [h] at hout; cases hout
    | some vs =>
      rw [h] at hout
      by_cases hz : calculateAverage vs = 0
      · simp [hz] at hout
      · simp only [hz, if_neg, ite_false, Except.ok.injEq] at hout
        subst hout
        refine ⟨rfl, fun hinv p hp => ?_⟩
        simp only [List.mem_map] at hp
        obtain ⟨q, hq, rfl⟩ := hp
        by_cases hb : q.1 = base <;> simp [hb, hinv q hq]

/-- C9 witness: the parsed two-record response and its renormalization both
satisfy the length invariant with unchanged dates. -/
theorem series_length_invariant_witness :
    processResponse [⟨0, [("a", 5), ("b", 7)]⟩, ⟨1, [("a", 2)]⟩] =
      some ⟨[0, 1], [("a", [5, 2]), ("b", [7, 0])]⟩ ∧
    (∀ p ∈ [("a", ([5, 2] : List ℚ)), ("b", [7, 0])], p.2.length = [(0 : ℤ), 1].length) ∧
    normalizeData ⟨[0, 1], [("a", [5, 2]), ("b", [7, 0])]⟩ ⟨3, 7, 2⟩ "a" =
      .ok ⟨[0, 1], [("a", [7, 7]), ("b", [14, 0])]⟩ ∧
    (∀ p ∈ [("a", ([7, 7] : List ℚ)), ("b", [14, 0])], p.2.length = [(0 : ℤ), 1].length) := by
  have hp : processResponse [⟨0, [("a", 5), ("b", 7)]⟩, ⟨1, [("a", 2)]⟩] =
      some ⟨[0, 1], [("a", [5, 2]), ("b", [7, 0])]⟩ := by
    simp [processResponse, fieldLookup]
  have hn : normalizeData ⟨[0, 1], [("a", [5, 2]), ("b", [7, 0])]⟩ ⟨3, 7, 2⟩ "a" =
      .ok ⟨[0, 1], [("a", [7, 7]), ("b", [14, 0])]⟩ := by
    norm_num [normalizeData, alookup, calculateAverage_cons, jsRound, List.replicate]
    all_goals decide
  refine ⟨hp, ?_, hn, ?_⟩
  · exact series_length_invariant.1 _ _ hp
  · exact (series_length_invariant.2 _ ⟨3, 7, 2⟩ "a" _ hn).2 (by decide)

/-- In expansion mode the written headers are the keywords after the first
enumerated key. -/
theorem writtenHeaders_outputWrites :
    ∀ (data : TrendSeries) (startCol : ℤ),
      writtenHeaders (outputWrites data startCol true) =
        (data.keywords.map Prod.fst).drop 1 := by
  intro data startCol
  by_cases h : (data.keywords.map Prod.fst).drop 1 = []
  · simp [outputWrites, h, writtenHeaders]
  · simp only [outputWrites, if_true, if_neg h]
    split <;> simp_all [writtenHeaders]

/-- C10.  In expansion mode `outputData` writes headers for exactly the
keywords after the *first enumerated key* (a positional, not name-based,
omission); so whenever the first key is not the base keyword, the base
keyword's column is written and the first (non-base) keyword's column is
silently dropped. -/
theorem outputData_expansion_positional :
    (∀ (data : TrendSeries) (startCol : ℤ),
        writtenHeaders (outputWrites data startCol true) =
          (data.keywords.map Prod.fst).drop 1) ∧
    (∀ (data : TrendSeries) (startCol : ℤ) (base k0 : String) (ks : List String),
        (data.keywords.map Prod.fst).Nodup →
        data.keywords.map Prod.fst = k0 :: ks →
        k0 ≠ base → base ∈ ks →
        base ∈ writtenHeaders (outputWrites data startCol true) ∧
          k0 ∉ writtenHeaders (outputWrites data startCol true)) := by
  have hmain := writtenHeaders_outputWrites
  refine ⟨hmain, fun data startCol base k0 ks hnd hks hne hmem => ?_⟩
  rw [hmain, hks]
  simp only [List.drop_succ_cons, List.drop_zero]
  rw [hks] at hnd
  exact ⟨hmem, (List.nodup_cons.mp hnd).1⟩

/-- C10 witness: a series that enumerates a non-base keyword `X` first;
the expansion write emits a `BASE` column and drops `X`. -/
theorem outputData_expansion_positional_witness :
    writtenHeaders (outputWrites ⟨[0], [("X", [10]), ("BASE", [20])]⟩ 4 true) = ["BASE"] ∧
    ("BASE" ∈ writtenHeaders (outputWrites ⟨[0], [("X", [10]), ("BASE", [20])]⟩ 4 true) ∧
      "X" ∉ writtenHeaders (outputWrites ⟨[0], [("X", [10]), ("BASE", [20])]⟩ 4 true)) := by
  constructor
  · rw [outputData_expansion_positional.1 ⟨[0], [("X", [10]), ("BASE", [20])]⟩ 4]
    rfl
  · exact outputData_expansion_positional.2 ⟨[0], [("X", [10]), ("BASE", [20])]⟩ 4
      "BASE" "X" ["BASE"] (by decide) rfl (by decide) (by decide)

/-- Two sorted lists of strings are equal exactly when the underlying
lists have the same elements as finite sets, provided both are
duplicate-free. -/
theorem sortStrings_eq_iff_toFinset_eq {l1 l2 : List String}
    (h1 : l1.Nodup) (h2 : l2.Nodup) :
    (sortStrings l1 = sortStrings l2) ↔ l1.toFinset = l2.toFinset := by
  have p1 : List.Perm (sortStrings l1) l1 := List.perm_insertionSort _ l1
  have p2 : List.Perm (sortStrings l2) l2 := List.perm_insertionSort _ l2
  have s1 : (sortStrings l1).Sorted (· ≤ ·) := List.sorted_insertionSort _ l1
  have s2 : (sortStrings l2).Sorted (· ≤ ·) := List.sorted_insertionSort _ l2
  constructor
  · intro h
    exact List.toFinset_eq_of_perm _ _ (p1.symm.trans (h ▸ p2))
  · intro h
    have hperm : List.Perm l1 l2 := List.perm_of_nodup_nodup_toFinset_eq h1 h2 h
    exact List.eq_of_perm_of_sorted (p1.trans (hperm.trans p2.symm)) s1 s2

/-- C2.  For duplicate-free keyword lists (the TrendQuery invariant),
`determineMode` realizes exactly the claimed decision table, evaluated in
order: absent previous → NEW; changed base keyword → NEW; changed
start/end/frequency → NEW; order-insensitive non-base keyword *set*
difference → EXPAND; otherwise SAME. -/
theorem determineMode_matches_spec (current : Config) (previous : Option Config)
    (hc : current.keywords.Nodup)
    (hp : ∀ prev, previous = some prev → prev.keywords.Nodup) :
    (determineMode current previous).1 = determineModeSpec current previous := by
  cases previous with
  | none => rfl
  | some prev =>
    have hc1 : (current.keywords.drop 1).Nodup := hc.sublist (List.drop_sublist 1 _)
    have hp1 : (prev.keywords.drop 1).Nodup :=
      (hp prev rfl).sublist (List.drop_sublist 1 _)
    rw [List.drop_one] at hc1 hp1
    simp only [determineMode, determineModeSpec, List.drop_one]
    by_cases hb : current.baseKeyword ≠ prev.baseKeyword
    · simp [hb]
    · by_cases hd : current.startDate ≠ prev.startDate ∨ current.endDate ≠ prev.endDate ∨
        current.frequency ≠ prev.frequency
      · simp [hb, hd]
      · by_cases hs : sortStrings current.keywords.tail = sortStrings prev.keywords.tail
        · have hf : current.keywords.tail.toFinset = prev.keywords.tail.toFinset :=
            (sortStrings_eq_iff_toFinset_eq hc1 hp1).mp hs
          simp [hb, hd, hs, hf]
        · have hf : current.keywords.tail.toFinset ≠ prev.keywords.tail.toFinset :=
            fun h => hs ((sortStrings_eq_iff_toFinset_eq hc1 hp1).mpr h)
          simp [hb, hd, hs, hf]

/-- C2 witness: reordering the non-base keywords of an otherwise identical
query is classified the same way (SAME) by the code and by the spec's
decision table. -/
theorem determineMode_matches_spec_witness :
    (["A", "B", "C"] : List String).Nodup ∧
    (determineMode ⟨["A", "B", "C"], some 0, some 1, "weekly", some "A"⟩
        (some ⟨["A", "C", "B"], some 0, some 1, "weekly", some "A"⟩)).1 =
      determineModeSpec ⟨["A", "B", "C"], some 0, some 1, "weekly", some "A"⟩
        (some ⟨["A", "C", "B"], some 0, some 1, "weekly", some "A"⟩) := by
  refine ⟨by decide, ?_⟩
  exact determineMode_matches_spec
    ⟨["A", "B", "C"], some 0, some 1, "weekly", some "A"⟩
    (some ⟨["A", "C", "B"], some 0, some 1, "weekly", some "A"⟩)
    (by decide) (fun prev h => by cases h; decide)

/-- Evaluation rule for `daysDiff` when the span is an exact number of
days. -/
theorem daysDiff_eval (s e d : ℤ) (h : (e - s : ℤ) = d * 86400000) :
    daysDiff s e = d := by
  unfold daysDiff
  rw [h]
  push_cast
  rw [mul_div_assoc]
  norm_num

/-- C6.  Corrected form: `validateConfig` accepts exactly the configs with
1–4 keywords, both dates present, a known frequency and the
frequency-specific ceil-day-span bounds — it checks neither keyword
uniqueness, nor keyword length, nor `end_date > start_date` beyond what the
weekly/monthly minimum spans imply — and a config that fails validation
never reaches an API call in the main flow. -/
theorem validateConfig_characterization :
    (∀ (c : Config) (s e : ℤ), c.startDate = some s → c.endDate = some e →
        (validateConfig c = true ↔
          (c.keywords ≠ [] ∧ c.keywords.length ≤ 4 ∧
            c.frequency ∈ ["daily", "weekly", "monthly"] ∧
            (c.frequency = "daily" → daysDiff s e ≤ 270) ∧
            (c.frequency = "weekly" → 7 ≤ daysDiff s e) ∧
            (c.frequency = "monthly" → 30 ≤ daysDiff s e)))) ∧
    (∀ c : Config, c.startDate = none ∨ c.endDate = none → validateConfig c = false) ∧
    (∀ (serverReady : Bool) (c : Config) (previous : Option Config) (rerun : Bool),
        validateConfig c = false →
        fetchInvoked serverReady c previous rerun = false) := by
  refine ⟨?_, ?_, ?_⟩
  · intro c s e hs he
    unfold validateConfig
    rw [hs, he]
    by_cases h1 : c.keywords = []
    · simp [h1]
    · by_cases h2 : 4 < c.keywords.length
      · simp only [h1, h2, ite_true, ite_false, if_true, if_false]
        constructor
        · intro h; cases h
        · rintro ⟨-, hlen, -⟩; omega
      · by_cases h3 : c.frequency ∈ ["daily", "weekly", "monthly"]
        · simp only [h1, h2, h3, not_true_eq_false, ite_false, if_false,
            not_false_eq_true, ite_true, if_true]
          constructor
          · intro hv
            refine ⟨by simp [h1], by omega, by simp [h3], ?_, ?_, ?_⟩ <;> intro hf <;>
              by_contra hcon <;> simp [hf, hcon] at hv
          · rintro ⟨-, -, -, hd, hw, hm⟩
            have hdc : ¬(c.frequency = "daily" ∧ 270 < daysDiff s e) := by
              rintro ⟨hf, hlt⟩; exact absurd (hd hf) (by omega)
            have hwc : ¬(c.frequency = "weekly" ∧ daysDiff s e < 7) := by
              rintro ⟨hf, hlt⟩; exact absurd (hw hf) (by omega)
            have hmc : ¬(c.frequency = "monthly" ∧ daysDiff s e < 30) := by
              rintro ⟨hf, hlt⟩; exact absurd (hm hf) (by omega)
            simp [hdc, hwc, hmc]
        · simp [h1, h2, h3]
  · intro c hc
    unfold validateConfig
    rcases hc with h | h <;> rw [h]
    · rcases c.endDate with - | y <;> simp
    · rcases c.startDate with - | x <;> simp
  · intro serverReady c previous rerun hv
    unfold fetchInvoked
    rw [hv]
    cases serverReady <;> rfl

/-- C6 witness: a 5-keyword config and a 300-day daily config both fail
validation, and the failing 5-keyword config never reaches an API call. -/
theorem validateConfig_characterization_witness :
    validateConfig ⟨["a", "b", "c", "d", "e"], some 0, some 86400000, "daily", some "a"⟩
      = false ∧
    fetchInvoked true ⟨["a", "b", "c", "d", "e"], some 0, some 86400000, "daily", some "a"⟩
      none true = false ∧
    validateConfig ⟨["a"], some 0, some (86400000 * 300), "daily", some "a"⟩ = false := by
  refine ⟨by decide, ?_, ?_⟩
  · exact validateConfig_characterization.2.2 true
      ⟨["a", "b", "c", "d", "e"], some 0, some 86400000, "daily", some "a"⟩ none true
      (by decide)
  · have h := (validateConfig_characterization.1
      ⟨["a"], some 0, some (86400000 * 300), "daily", some "a"⟩ 0 (86400000 * 300)
      rfl rfl)
    rw [Bool.eq_false_iff]
    intro hv
    have hle := ((h.mp hv).2.2.2.1 rfl)
    have hceil : daysDiff 0 (86400000 * 300) = (300 : ℤ) :=
      daysDiff_eval 0 (86400000 * 300) 300 (by decide)
    omega

/-- C6 counterexample: a `daily` config whose end date lies *before* its
start date (violating the TrendQuery invariant `end_date > start_date`) is
accepted by `validateConfig` — the negative ceil-day span passes the
`daily ≤ 270` check and daily has no minimum-span check. -/
theorem validateConfig_accepts_reversed_dates_cex :
    validateConfig ⟨["a"], some 8640000000, some 0, "daily", some "a"⟩ = true ∧
    ¬ ((0 : ℤ) > 8640000000) := by
  have hd : daysDiff 8640000000 0 = (-100 : ℤ) :=
    daysDiff_eval 8640000000 0 (-100) (by decide)
  constructor
  · norm_num [validateConfig, hd]
    decide
  · norm_num

/-- Whether a write event touches the data region (rows ≥ 8), as opposed to
the hidden config/data-info descriptor rows. -/
def isDataWrite : WriteEvent → Bool
  | WriteEvent.clearData => true
  | WriteEvent.headerWrite _ _ => true
  | WriteEvent.valuesWrite _ _ _ => true
  | WriteEvent.saveConfig _ => false
  | WriteEvent.dataInfoWrite _ => false

/-- Whether a write event is the data-info descriptor write. -/
def isDataInfoWrite : WriteEvent → Bool
  | WriteEvent.dataInfoWrite _ => true
  | _ => false

/-- Dropping a prefix that satisfies the predicate skips it entirely. -/
theorem dropWhile_append_of_all {α : Type} (p : α → Bool) {l1 l2 : List α}
    (h : ∀ a ∈ l1, p a = true) :
    List.dropWhile p (l1 ++ l2) = List.dropWhile p l2 := by
  induction l1 with
  | nil => rfl
  | cons a t ih =>
    have ha := h a (List.mem_cons_self a t)
    simp only [List.cons_append, List.dropWhile_cons, ha, ite_true, if_true]
    exact ih fun b hb => h b (List.mem_cons_of_mem a hb)

/-- Taking while the predicate holds stops exactly at the first failure. -/
theorem takeWhile_append_of_all {α : Type} (p : α → Bool) (l1 : List α) {l2 : List α}
    {x : α} (h : ∀ a ∈ l1, p a = true) (hx : p x = false) :
    List.takeWhile p (l1 ++ x :: l2) = l1 := by
  induction l1 with
  | nil => simp [List.takeWhile_cons, hx]
  | cons a t ih =>
    have ha := h a (List.mem_cons_self a t)
    simp only [List.cons_append, List.takeWhile_cons, ha, ite_true, if_true]
    rw [ih fun b hb => h b (List.mem_cons_of_mem a hb)]

/-- Every event emitted by `outputData` writes into the data region. -/
theorem outputWrites_isDataWrite (data : TrendSeries) (startColumn : ℤ)
    (isExpansion : Bool) :
    ∀ e ∈ outputWrites data startColumn isExpansion, isDataWrite e = true := by
  intro e he
  rcases isExpansion <;>
    [(simp only [outputWrites, Bool.false_eq_true, if_false, ite_false] at he);
     (simp only [outputWrites, if_true, ite_true] at he)] <;>
  · split at he
    · exact absurd he (List.not_mem_nil e)
    · rcases List.mem_cons.mp he with h | h
      · rw [h]; rfl
      · split at h
        · exact absurd h (List.not_mem_nil e)
        · rcases List.mem_cons.mp h with h2 | h2
          · rw [h2]; rfl
          · exact absurd h2 (List.not_mem_nil e)

/-- C8.  Corrected form: in `executeNewAnalysis` the data-info save is the
final write; in `executeExpansion` the data-info update is followed only by
the session-config save; in both paths every data-region write precedes
every descriptor write, so the data region is never observed updated after
its descriptor. -/
theorem dataInfo_update_order :
    (∀ (data : TrendSeries) (config : Config),
        ((executeNewAnalysis (.ok data) config).1).getLast? =
          some (WriteEvent.dataInfoWrite (savedDataInfo data config.baseKeyword)) ∧
        (((executeNewAnalysis (.ok data) config).1).dropWhile isDataWrite).all
          (fun e => !isDataWrite e) = true) ∧
    (∀ (info : DataInfo) (d : TrendSeries) (cfg : Config) (b : String)
        (normalized : TrendSeries),
        cfg.baseKeyword = some b → normalizeData d info b = .ok normalized →
        ((executeExpansion (some info) (.ok d) cfg).1).getLast? =
          some (WriteEvent.saveConfig cfg) ∧
        ((executeExpansion (some info) (.ok d) cfg).1).dropLast.getLast? =
          some (WriteEvent.dataInfoWrite
            (updatedDataInfo info normalized (info.lastColumn + 1))) ∧
        (((executeExpansion (some info) (.ok d) cfg).1).dropWhile isDataWrite).all
          (fun e => !isDataWrite e) = true) := by
  constructor
  · intro data config
    have htr : (executeNewAnalysis (.ok data) config).1 =
        (WriteEvent.clearData :: outputWrites data 1 false) ++
          [WriteEvent.saveConfig config,
           WriteEvent.dataInfoWrite (savedDataInfo data config.baseKeyword)] := by
      simp [executeNewAnalysis]
    rw [htr]
    constructor
    · rw [show ((WriteEvent.clearData :: outputWrites data 1 false) ++
          [WriteEvent.saveConfig config,
           WriteEvent.dataInfoWrite (savedDataInfo data config.baseKeyword)]) =
          ((WriteEvent.clearData :: outputWrites data 1 false) ++
            [WriteEvent.saveConfig config]) ++
            [WriteEvent.dataInfoWrite (savedDataInfo data config.baseKeyword)] by
          simp]
      exact List.getLast?_concat _
    · rw [dropWhile_append_of_all isDataWrite ?_]
      · rfl
      · intro a ha
        rcases List.mem_cons.mp ha with h | h
        · rw [h]; rfl
        · exact outputWrites_isDataWrite data 1 false a h
  · intro info d cfg b normalized hb hn
    have htr : (executeExpansion (some info) (.ok d) cfg).1 =
        outputWrites normalized (info.lastColumn + 1) true ++
          [WriteEvent.dataInfoWrite (updatedDataInfo info normalized (info.lastColumn + 1)),
           WriteEvent.saveConfig cfg] := by
      simp [executeExpansion, hb, hn]
    rw [htr]
    refine ⟨?_, ?_, ?_⟩
    · rw [show (outputWrites normalized (info.lastColumn + 1) true ++
          [WriteEvent.dataInfoWrite (updatedDataInfo info normalized (info.lastColumn + 1)),
           WriteEvent.saveConfig cfg]) =
          (outputWrites normalized (info.lastColumn + 1) true ++
            [WriteEvent.dataInfoWrite
              (updatedDataInfo info normalized (info.lastColumn + 1))]) ++
            [WriteEvent.saveConfig cfg] by simp]
      exact List.getLast?_concat _
    · rw [show (outputWrites normalized (info.lastColumn + 1) true ++
          [WriteEvent.dataInfoWrite (updatedDataInfo info normalized (info.lastColumn + 1)),
           WriteEvent.saveConfig cfg]) =
          (outputWrites normalized (info.lastColumn + 1) true ++
            [WriteEvent.dataInfoWrite
              (updatedDataInfo info normalized (info.lastColumn + 1))]) ++
            [WriteEvent.saveConfig cfg] by simp,
        List.dropLast_concat]
      exact List.getLast?_concat _
    · rw [dropWhile_append_of_all isDataWrite
        (outputWrites_isDataWrite normalized (info.lastColumn + 1) true)]
      rfl

/-- C8 witness: a concrete new analysis ends with its data-info save, and a
concrete expansion has its data-info update immediately before the final
config save, with no data write after either descriptor write. -/
theorem dataInfo_update_order_witness :
    ((executeNewAnalysis (.ok ⟨[0], [("A", [4])]⟩)
        ⟨["A"], some 0, some 1, "weekly", some "A"⟩).1).getLast? =
      some (WriteEvent.dataInfoWrite
        (savedDataInfo ⟨[0], [("A", [4])]⟩ (some "A"))) ∧
    normalizeData ⟨[0], [("BASE", [20]), ("X", [10])]⟩ ⟨3, 20, 1⟩ "BASE" =
      .ok ⟨[0], [("BASE", [20]), ("X", [10])]⟩ ∧
    ((executeExpansion (some ⟨3, 20, 1⟩)
        (.ok ⟨[0], [("BASE", [20]), ("X", [10])]⟩)
        ⟨["BASE", "X"], some 0, some 1, "weekly", some "BASE"⟩).1).dropLast.getLast? =
      some (WriteEvent.dataInfoWrite
        (updatedDataInfo ⟨3, 20, 1⟩ ⟨[0], [("BASE", [20]), ("X", [10])]⟩ 4)) := by
  have hn : normalizeData ⟨[0], [("BASE", [20]), ("X", [10])]⟩ ⟨3, 20, 1⟩ "BASE" =
      .ok ⟨[0], [("BASE", [20]), ("X", [10])]⟩ := by
    norm_num [normalizeData, alookup, calculateAverage_cons, jsRound, List.replicate]
    decide
  refine ⟨(dataInfo_update_order.1 ⟨[0], [("A", [4])]⟩
    ⟨["A"], some 0, some 1, "weekly", some "A"⟩).1, hn, ?_⟩
  exact (dataInfo_update_order.2 ⟨3, 20, 1⟩ ⟨[0], [("BASE", [20]), ("X", [10])]⟩
    ⟨["BASE", "X"], some 0, some 1, "weekly", some "BASE"⟩ "BASE"
    ⟨[0], [("BASE", [20]), ("X", [10])]⟩ rfl hn).2.1

/-- C8 counterexample: in a successful expansion the *last* write is the
session-config save, not the data-info update — the data-info update is not
the final step of the write sequence. -/
theorem executeExpansion_last_write_cex :
    ((executeExpansion (some ⟨3, 20, 1⟩)
        (.ok ⟨[0], [("BASE", [20]), ("X", [10])]⟩)
        ⟨["BASE", "X"], some 0, some 1, "weekly", some "BASE"⟩).2 = .ok ()) ∧
    (((executeExpansion (some ⟨3, 20, 1⟩)
        (.ok ⟨[0], [("BASE", [20]), ("X", [10])]⟩)
        ⟨["BASE", "X"], some 0, some 1, "weekly", some "BASE"⟩).1).getLast?.map
      isDataInfoWrite) = some false ∧
    (((executeExpansion (some ⟨3, 20, 1⟩)
        (.ok ⟨[0], [("BASE", [20]), ("X", [10])]⟩)
        ⟨["BASE", "X"], some 0, some 1, "weekly", some "BASE"⟩).1).filter
      isDataInfoWrite).length = 1 := by
  have hn : normalizeData ⟨[0], [("BASE", [20]), ("X", [10])]⟩ ⟨3, 20, 1⟩ "BASE" =
      .ok ⟨[0], [("BASE", [20]), ("X", [10])]⟩ := by
    norm_num [normalizeData, alookup, calculateAverage_cons, jsRound, List.replicate]
    decide
  simp only [executeExpansion, hn]
  decide

/-- The data-region columns a write event touches. -/
def writeCols : WriteEvent → List ℤ
  | WriteEvent.headerWrite c hs => (List.range hs.length).map fun i : ℕ => c + (i : ℤ)
  | WriteEvent.valuesWrite c n _ => (List.range n).map fun i : ℕ => c + (i : ℤ)
  | _ => []

/-- `writtenHeaders` distributes over trace concatenation. -/
theorem writtenHeaders_append (l1 l2 : List WriteEvent) :
    writtenHeaders (l1 ++ l2) = writtenHeaders l1 ++ writtenHeaders l2 := by
  induction l1 with
  | nil => rfl
  | cons e t ih => cases e <;> simp [writtenHeaders, ih]

/-- Renormalization keeps the keyword names and their order. -/
theorem normalizeData_keys (d : TrendSeries) (info : DataInfo) (base : String)
    (out : TrendSeries) (h : normalizeData d info base = .ok out) :
    out.keywords.map Prod.fst = d.keywords.map Prod.fst := by
  unfold normalizeData at h
  cases ha : alookup base d.keywords with
  | none => rw [ha] at h; cases h
  | some vs =>
    rw [ha] at h
    by_cases hz : calculateAverage vs = 0
    · simp [hz] at h
    · simp only [hz, ite_false, if_neg, not_false_eq_true, Except.ok.injEq] at h
      subst h
      simp only [List.map_map]
      refine List.map_congr_left fun kv _ => ?_
      by_cases hkv : kv.1 = base <;> simp [hkv]

/-- The two possible events of an expansion-mode `outputData` write. -/
theorem outputWrites_expansion_mem (data : TrendSeries) (startColumn : ℤ) :
    ∀ e ∈ outputWrites data startColumn true,
      e = WriteEvent.headerWrite startColumn ((data.keywords.map Prod.fst).drop 1) ∨
        e = WriteEvent.valuesWrite startColumn
              ((data.keywords.map Prod.fst).drop 1).length
              ((List.range data.dates.length).map fun i =>
                ((data.keywords.map Prod.fst).drop 1).map fun kw =>
                  Cell.num (((alookup kw data.keywords).getD []).getD i 0)) := by
  intro e he
  simp only [outputWrites, if_true, ite_true] at he
  split at he
  · exact absurd he (List.not_mem_nil e)
  · rcases List.mem_cons.mp he with h | h
    · exact Or.inl h
    · split at h
      · exact absurd h (List.not_mem_nil e)
      · rcases List.mem_cons.mp h with h2 | h2
        · exact Or.inr h2
        · exact absurd h2 (List.not_mem_nil e)

/-- C3.  Corrected form: a successful expansion writes only into columns
`existingInfo.lastColumn + 1 .. lastColumn + n` (`n` = number of keywords
after the first enumerated key), never touching previously written columns
or clearing the table; the stored data info keeps `baseAverage` and
`dataRows` and sets `lastColumn` to the new rightmost column; and the
written columns are exactly the non-base keywords whenever the series
enumerates the base keyword first. -/
theorem executeExpansion_frame (info : DataInfo) (d : TrendSeries) (cfg : Config)
    (b : String) (normalized : TrendSeries)
    (hb : cfg.baseKeyword = some b) (hn : normalizeData d info b = .ok normalized) :
    (executeExpansion (some info) (.ok d) cfg).2 = .ok () ∧
    WriteEvent.clearData ∉ (executeExpansion (some info) (.ok d) cfg).1 ∧
    (∀ e ∈ (executeExpansion (some info) (.ok d) cfg).1, ∀ c ∈ writeCols e,
        info.lastColumn + 1 ≤ c ∧
          c ≤ info.lastColumn + ((d.keywords.map Prod.fst).drop 1).length) ∧
    (∀ i, WriteEvent.dataInfoWrite i ∈ (executeExpansion (some info) (.ok d) cfg).1 →
        i = ⟨info.lastColumn + ((d.keywords.map Prod.fst).drop 1).length,
             info.baseAverage, info.dataRows⟩) ∧
    WriteEvent.dataInfoWrite
        ⟨info.lastColumn + ((d.keywords.map Prod.fst).drop 1).length,
         info.baseAverage, info.dataRows⟩ ∈
      (executeExpansion (some info) (.ok d) cfg).1 ∧
    (∀ (k0 : String) (ks : List String), d.keywords.map Prod.fst = k0 :: ks → k0 = b →
        writtenHeaders (executeExpansion (some info) (.ok d) cfg).1 = ks) := by
  have hkeys := normalizeData_keys d info b normalized hn
  have htr : (executeExpansion (some info) (.ok d) cfg).1 =
      outputWrites normalized (info.lastColumn + 1) true ++
        [WriteEvent.dataInfoWrite (updatedDataInfo info normalized (info.lastColumn + 1)),
         WriteEvent.saveConfig cfg] := by
    simp [executeExpansion, hb, hn]
  have hinfo : updatedDataInfo info normalized (info.lastColumn + 1) =
      ⟨info.lastColumn + ((d.keywords.map Prod.fst).drop 1).length,
       info.baseAverage, info.dataRows⟩ := by
    unfold updatedDataInfo
    rw [hkeys]
    simp only [DataInfo.mk.injEq, and_true]
    ring
  refine ⟨by simp [executeExpansion, hb, hn], ?_, ?_, ?_, ?_, ?_⟩
  · rw [htr]
    intro hmem
    rcases List.mem_append.mp hmem with h | h
    · rcases outputWrites_expansion_mem normalized (info.lastColumn + 1) _ h with h2 | h2 <;>
        cases h2
    · rcases List.mem_cons.mp h with h2 | h2
      · cases h2
      · rcases List.mem_cons.mp h2 with h3 | h3
        · cases h3
        · exact absurd h3 (List.not_mem_nil _)
  · rw [htr]
    intro e he c hc
    rcases List.mem_append.mp he with h | h
    · rcases outputWrites_expansion_mem normalized (info.lastColumn + 1) _ h with h2 | h2
      · subst h2
        simp only [writeCols, hkeys, List.mem_map, List.mem_range] at hc
        obtain ⟨i, hi, rfl⟩ := hc
        omega
      · subst h2
        simp only [writeCols, hkeys, List.mem_map, List.mem_range] at hc
        obtain ⟨i, hi, rfl⟩ := hc
        omega
    · rcases List.mem_cons.mp h with h2 | h2
      · subst h2; cases hc
      · rcases List.mem_cons.mp h2 with h3 | h3
        · subst h3; cases hc
        · exact absurd h3 (List.not_mem_nil _)
  · rw [htr]
    intro i hi
    rcases List.mem_append.mp hi with h | h
    · rcases outputWrites_expansion_mem normalized (info.lastColumn + 1) _ h with h2 | h2 <;>
        cases h2
    · rcases List.mem_cons.mp h with h2 | h2
      · injection h2 with h3
        exact h3.trans hinfo
      · rcases List.mem_cons.mp h2 with h3 | h3
        · cases h3
        · exact absurd h3 (List.not_mem_nil _)
  · rw [htr, ← hinfo]
    exact List.mem_append.mpr (Or.inr (List.mem_cons_self _ _))
  · intro k0 ks hks hk0
    rw [htr, writtenHeaders_append, writtenHeaders_outputWrites, hkeys, hks]
    simp [writtenHeaders]

/-- C3 witness: expanding with a series that enumerates the base keyword
first writes exactly the non-base column `X` into column 4
(`lastColumn 3 + 1`), and the stored data info becomes
`{lastColumn := 4, baseAverage := 20, dataRows := 1}`. -/
theorem executeExpansion_frame_witness :
    normalizeData ⟨[0], [("BASE", [20]), ("X", [10])]⟩ ⟨3, 20, 1⟩ "BASE" =
      .ok ⟨[0], [("BASE", [20]), ("X", [10])]⟩ ∧
    (executeExpansion (some ⟨3, 20, 1⟩) (.ok ⟨[0], [("BASE", [20]), ("X", [10])]⟩)
        ⟨["BASE", "X"], some 0, some 1, "weekly", some "BASE"⟩).2 = .ok () ∧
    WriteEvent.dataInfoWrite ⟨4, 20, 1⟩ ∈
      (executeExpansion (some ⟨3, 20, 1⟩) (.ok ⟨[0], [("BASE", [20]), ("X", [10])]⟩)
        ⟨["BASE", "X"], some 0, some 1, "weekly", some "BASE"⟩).1 ∧
    writtenHeaders (executeExpansion (some ⟨3, 20, 1⟩)
        (.ok ⟨[0], [("BASE", [20]), ("X", [10])]⟩)
        ⟨["BASE", "X"], some 0, some 1, "weekly", some "BASE"⟩).1 = ["X"] := by
  have hn : normalizeData ⟨[0], [("BASE", [20]), ("X", [10])]⟩ ⟨3, 20, 1⟩ "BASE" =
      .ok ⟨[0], [("BASE", [20]), ("X", [10])]⟩ := by
    norm_num [normalizeData, alookup, calculateAverage_cons, jsRound, List.replicate]
    decide
  have h := executeExpansion_frame ⟨3, 20, 1⟩ ⟨[0], [("BASE", [20]), ("X", [10])]⟩
    ⟨["BASE", "X"], some 0, some 1, "weekly", some "BASE"⟩ "BASE"
    ⟨[0], [("BASE", [20]), ("X", [10])]⟩ rfl hn
  exact ⟨hn, h.1, h.2.2.2.2.1, h.2.2.2.2.2 "BASE" ["X"] rfl rfl⟩

/-- C3 counterexample: when the fetched series enumerates a non-base
keyword first, a successful expansion writes a `BASE` column and drops the
non-base column `X` — contradicting "only non-base keyword columns are
written". -/
theorem executeExpansion_writes_base_column_cex :
    (executeExpansion (some ⟨3, 20, 1⟩) (.ok ⟨[0], [("X", [10]), ("BASE", [20])]⟩)
        ⟨["BASE", "X"], some 0, some 1, "weekly", some "BASE"⟩).2 = .ok () ∧
    "BASE" ∈ writtenHeaders (executeExpansion (some ⟨3, 20, 1⟩)
        (.ok ⟨[0], [("X", [10]), ("BASE", [20])]⟩)
        ⟨["BASE", "X"], some 0, some 1, "weekly", some "BASE"⟩).1 ∧
    "X" ∉ writtenHeaders (executeExpansion (some ⟨3, 20, 1⟩)
        (.ok ⟨[0], [("X", [10]), ("BASE", [20])]⟩)
        ⟨["BASE", "X"], some 0, some 1, "weekly", some "BASE"⟩).1 := by
  have hxb : ¬ ("X" = "BASE") := by decide
  have hn : normalizeData ⟨[0], [("X", [10]), ("BASE", [20])]⟩ ⟨3, 20, 1⟩ "BASE" =
      .ok ⟨[0], [("X", [10]), ("BASE", [20])]⟩ := by
    norm_num [normalizeData, alookup, hxb, calculateAverage_cons, jsRound, List.replicate]
  simp only [executeExpansion, hn]
  decide

/-- `apiCalls` distributes over concatenation. -/
theorem apiCalls_append (a b : List FetchEvent) :
    apiCalls (a ++ b) = apiCalls a + apiCalls b := by
  simp [apiCalls, List.filter_append]

/-- Each iteration's pre-call events contain exactly one API call. -/
theorem apiCalls_preEvents (rand : ℕ → ℚ) (attempt : ℕ) :
    apiCalls (preEvents rand attempt) = 1 := by
  unfold preEvents
  split <;> rfl

/-- The post-failure sleeps contain no API call. -/
theorem apiCalls_postEvents (maxRetries attempt : ℕ) (r : ApiResponse) :
    apiCalls (postEvents maxRetries attempt r) = 0 := by
  rcases r with recs | code | msg
  · rfl
  · simp only [postEvents]
    repeat' split
    all_goals rfl
  · rfl

/-- If every attempt in the remaining budget fails, the loop exhausts the
budget, makes exactly `fuel` further calls, and throws the message wrapping
the last attempt's error. -/
theorem fetchLoop_all_fail (op : ℕ → ApiResponse) (rand : ℕ → ℚ) (maxR : ℕ) :
    ∀ (fuel attempt : ℕ) (le : Option String),
      (∀ k, attempt ≤ k → k < attempt + fuel → stepResult (op k) = none) →
      (fetchLoop op rand maxR fuel attempt le).2 =
        .error (exhaustMsg maxR
          (if fuel = 0 then le else some (classifyErr (op (attempt + fuel - 1))))) ∧
      apiCalls (fetchLoop op rand maxR fuel attempt le).1 = fuel := by
  intro fuel
  induction fuel with
  | zero => intro attempt le _; exact ⟨rfl, rfl⟩
  | succ n ih =>
    intro attempt le h
    have hfail : stepResult (op attempt) = none := h attempt le_rfl (by omega)
    have ihr := ih (attempt + 1) (some (classifyErr (op attempt)))
      (fun k hk1 hk2 => h k (by omega) (by omega))
    have harg : (if n = 0 then some (classifyErr (op attempt))
        else some (classifyErr (op (attempt + 1 + n - 1)))) =
        some (classifyErr (op (attempt + (n + 1) - 1))) := by
      rcases n with - | m
      · simp
      · have he1 : attempt + 1 + (m + 1) - 1 = attempt + (m + 1 + 1) - 1 := by omega
        simp [he1]
    constructor
    · simp only [fetchLoop, hfail]
      rw [ihr.1, harg]
      simp
    · simp only [fetchLoop, hfail]
      rw [apiCalls_append, apiCalls_append, apiCalls_preEvents, apiCalls_postEvents,
        ihr.2]
      omega

/-- If the first `k - attempt` remaining attempts fail and attempt `k`
succeeds within the budget, the loop returns that success after exactly
`k - attempt + 1` further calls. -/
theorem fetchLoop_success (op : ℕ → ApiResponse) (rand : ℕ → ℚ) (maxR k : ℕ)
    (s : TrendSeries) :
    ∀ (fuel attempt : ℕ) (le : Option String),
      attempt ≤ k → k < attempt + fuel →
      (∀ i, attempt ≤ i → i < k → stepResult (op i) = none) →
      stepResult (op k) = some s →
      (fetchLoop op rand maxR fuel attempt le).2 = .ok s ∧
      apiCalls (fetchLoop op rand maxR fuel attempt le).1 = k - attempt + 1 := by
  intro fuel
  induction fuel with
  | zero => intro attempt le h1 h2 _ _; omega
  | succ n ih =>
    intro attempt le h1 h2 hfails hk
    by_cases ha : attempt = k
    · subst ha
      constructor
      · simp only [fetchLoop, hk]
      · simp only [fetchLoop, hk]
        rw [apiCalls_preEvents]
        omega
    · have hlt : attempt < k := lt_of_le_of_ne h1 ha
      have hfail : stepResult (op attempt) = none := hfails attempt le_rfl hlt
      have ihr := ih (attempt + 1) (some (classifyErr (op attempt)))
        (by omega) (by omega) (fun i hi1 hi2 => hfails i (by omega) hi2) hk
      constructor
      · simp only [fetchLoop, hfail]
        exact ihr.1
      · simp only [fetchLoop, hfail]
        rw [apiCalls_append, apiCalls_append, apiCalls_preEvents, apiCalls_postEvents,
          ihr.2]
        omega

/-- C5.  The client retry controller: when every attempt in the budget
fails it makes exactly `maxRetries` attempts and throws the message
wrapping the last attempt's error; when the attempts before `k` fail and
attempt `k ≤ maxRetries` succeeds, it returns that success after exactly
`k` attempts — never more. -/
theorem fetchFromAPI_retry_contract :
    (∀ (op : ℕ → ApiResponse) (rand : ℕ → ℚ) (maxR : ℕ), 1 ≤ maxR →
        (∀ k, 1 ≤ k → k ≤ maxR → stepResult (op k) = none) →
        (fetchWithRetry op rand maxR).2 =
          .error (exhaustMsg maxR (some (classifyErr (op maxR)))) ∧
        apiCalls (fetchWithRetry op rand maxR).1 = maxR) ∧
    (∀ (op : ℕ → ApiResponse) (rand : ℕ → ℚ) (maxR k : ℕ) (s : TrendSeries),
        1 ≤ k → k ≤ maxR →
        (∀ i, 1 ≤ i → i < k → stepResult (op i) = none) →
        stepResult (op k) = some s →
        (fetchWithRetry op rand maxR).2 = .ok s ∧
        apiCalls (fetchWithRetry op rand maxR).1 = k) := by
  constructor
  · intro op rand maxR hmax h
    have hr := fetchLoop_all_fail op rand maxR maxR 1 none
      (fun k hk1 hk2 => h k hk1 (by omega))
    have harg : (if maxR = 0 then (none : Option String)
        else some (classifyErr (op (1 + maxR - 1)))) =
        some (classifyErr (op maxR)) := by
      have h0 : ¬ maxR = 0 := by omega
      have h1 : 1 + maxR - 1 = maxR := by omega
      simp [h0, h1]
    rw [harg] at hr
    exact hr
  · intro op rand maxR k s hk1 hkm hfails hk
    have hr := fetchLoop_success op rand maxR k s maxR 1 none hk1 (by omega) hfails hk
    have harg : k - 1 + 1 = k := by omega
    rw [harg] at hr
    exact hr

/-- C5 witness: with `maxRetries = 4`, an operation failing with `500`
twice and succeeding on the third attempt returns the parsed series after
exactly 3 calls; an operation that always returns `429` exhausts all 4
attempts and throws the wrapped rate-limit error. -/
theorem fetchFromAPI_retry_contract_witness :
    (∀ k, 1 ≤ k → k ≤ 4 →
        stepResult ((fun _ => ApiResponse.status 429) k) = none) ∧
    (fetchWithRetry (fun _ => ApiResponse.status 429) (fun _ => 0) 4).2 =
      .error (exhaustMsg 4 (some "Rate limit exceeded")) ∧
    apiCalls (fetchWithRetry (fun _ => ApiResponse.status 429) (fun _ => 0) 4).1 = 4 ∧
    stepResult ((fun j => if j = 3 then ApiResponse.ok [⟨0, [("a", 1)]⟩]
        else ApiResponse.status 500) 3) =
      some ⟨[0], [("a", [1])]⟩ ∧
    (fetchWithRetry (fun j => if j = 3 then ApiResponse.ok [⟨0, [("a", 1)]⟩]
        else ApiResponse.status 500) (fun _ => 0) 4).2 =
      .ok ⟨[0], [("a", [1])]⟩ ∧
    apiCalls (fetchWithRetry (fun j => if j = 3 then ApiResponse.ok [⟨0, [("a", 1)]⟩]
        else ApiResponse.status 500) (fun _ => 0) 4).1 = 3 := by
  have hfail : ∀ k, 1 ≤ k → k ≤ 4 →
      stepResult ((fun _ => ApiResponse.status 429) k) = none := fun k _ _ => rfl
  have h1 := fetchFromAPI_retry_contract.1 (fun _ => ApiResponse.status 429)
    (fun _ => 0) 4 (by omega) hfail
  have hsucc : stepResult ((fun j => if j = 3 then ApiResponse.ok [⟨0, [("a", 1)]⟩]
      else ApiResponse.status 500) 3) = some ⟨[0], [("a", [1])]⟩ := rfl
  have hpre : ∀ i, 1 ≤ i → i < 3 →
      stepResult ((fun j => if j = 3 then ApiResponse.ok [⟨0, [("a", 1)]⟩]
        else ApiResponse.status 500) i) = none := by
    intro i h1 h2
    interval_cases i <;> rfl
  have h2 := fetchFromAPI_retry_contract.2
    (fun j => if j = 3 then ApiResponse.ok [⟨0, [("a", 1)]⟩] else ApiResponse.status 500)
    (fun _ => 0) 4 3 ⟨[0], [("a", [1])]⟩ (by omega) (by omega) hpre hsucc
  exact ⟨hfail, h1.1, h1.2, hsucc, h2.1, h2.2⟩

/-- One-step unfolding of the loop on a failing attempt. -/
theorem fetchLoop_succ_none (op : ℕ → ApiResponse) (rand : ℕ → ℚ)
    (maxR fuel attempt : ℕ) (le : Option String)
    (h : stepResult (op attempt) = none) :
    fetchLoop op rand maxR (fuel + 1) attempt le =
      (preEvents rand attempt ++ postEvents maxR attempt (op attempt) ++
        (fetchLoop op rand maxR fuel (attempt + 1) (some (classifyErr (op attempt)))).1,
       (fetchLoop op rand maxR fuel (attempt + 1) (some (classifyErr (op attempt)))).2) := by
  simp only [fetchLoop, h]

/-- One-step unfolding of the loop on a succeeding attempt. -/
theorem fetchLoop_succ_some (op : ℕ → ApiResponse) (rand : ℕ → ℚ)
    (maxR fuel attempt : ℕ) (le : Option String) (s : TrendSeries)
    (h : stepResult (op attempt) = some s) :
    fetchLoop op rand maxR (fuel + 1) attempt le = (preEvents rand attempt, .ok s) := by
  simp only [fetchLoop, h]

/-- Shape of the events of one iteration past the first: backoff sleep,
cold-start sleep, API call, then whatever follows. -/
theorem fetchLoop_head (op : ℕ → ApiResponse) (rand : ℕ → ℚ) (maxR fuel attempt : ℕ)
    (le : Option String) (h1 : 1 < attempt) :
    ∃ rest, (fetchLoop op rand maxR (fuel + 1) attempt le).1 =
      FetchEvent.sleepBackoff ((2 : ℚ) ^ (attempt - 1) * 15) ::
        FetchEvent.sleepCold (coldDelay rand attempt) ::
        FetchEvent.apiCall attempt :: rest := by
  rcases hstep : stepResult (op attempt) with - | s
  · refine ⟨postEvents maxR attempt (op attempt) ++
      (fetchLoop op rand maxR fuel (attempt + 1) (some (classifyErr (op attempt)))).1, ?_⟩
    simp [fetchLoop, hstep, preEvents, h1]
  · exact ⟨[], by simp [fetchLoop, hstep, preEvents, h1]⟩

/-- Events of a pre-call block are the backoff sleep, the cold sleep or the
attempt's own call. -/
theorem mem_preEvents {e : FetchEvent} (rand : ℕ → ℚ) (a : ℕ) (he : e ∈ preEvents rand a) :
    e = FetchEvent.sleepBackoff ((2 : ℚ) ^ (a - 1) * 15) ∨
      e = FetchEvent.sleepCold (coldDelay rand a) ∨ e = FetchEvent.apiCall a := by
  unfold preEvents at he
  split at he <;> (simp at he; tauto)

/-- Post-failure sleeps are never an API call. -/
theorem mem_postEvents_ne_apiCall {e : FetchEvent} (maxR a : ℕ) (r : ApiResponse)
    (m : ℕ) (he : e ∈ postEvents maxR a r) : e ≠ FetchEvent.apiCall m := by
  rcases r with recs | code | msg
  · exact absurd he (List.not_mem_nil e)
  · simp only [postEvents] at he
    split at he
    · split at he
      · rcases List.mem_singleton.mp he with rfl
        exact fun h => FetchEvent.noConfusion h
      · exact absurd he (List.not_mem_nil e)
    · split at he
      · split at he
        · rcases List.mem_singleton.mp he with rfl
          exact fun h => FetchEvent.noConfusion h
        · exact absurd he (List.not_mem_nil e)
      · exact absurd he (List.not_mem_nil e)
  · exact absurd he (List.not_mem_nil e)

/-- Reaching a rate-limited attempt `k` (with earlier attempts failing and
at least two attempts of budget left from `attempt`) decomposes the trace:
the `k`-th call is followed by the 120 s cooldown, then the next
iteration's backoff and cold sleeps, then the `(k+1)`-th call. -/
theorem fetchLoop_429_reach (op : ℕ → ApiResponse) (rand : ℕ → ℚ) (maxR k : ℕ)
    (hk1 : 1 ≤ k) (hkm : k < maxR) (h429 : op k = .status 429) :
    ∀ (fuel attempt : ℕ) (le : Option String),
      attempt ≤ k → k + 2 ≤ attempt + fuel →
      (∀ i, attempt ≤ i → i < k → stepResult (op i) = none) →
      ∃ p rest,
        (fetchLoop op rand maxR fuel attempt le).1 =
          p ++ FetchEvent.apiCall k ::
            FetchEvent.sleepRateLimit 120 ::
            FetchEvent.sleepBackoff ((2 : ℚ) ^ k * 15) ::
            FetchEvent.sleepCold (coldDelay rand (k + 1)) ::
            FetchEvent.apiCall (k + 1) :: rest ∧
          ∀ e ∈ p, e ≠ FetchEvent.apiCall k := by
  intro fuel
  induction fuel with
  | zero => intro attempt le h1 h2 _; omega
  | succ n ih =>
    intro attempt le h1 h2 hfails
    by_cases ha : attempt = k
    · subst ha
      have hfailk : stepResult (op attempt) = none := by rw [h429]; rfl
      obtain ⟨m, rfl⟩ : ∃ m, n = m + 1 := ⟨n - 1, by omega⟩
      obtain ⟨rest, hrest⟩ := fetchLoop_head op rand maxR m (attempt + 1)
        (some (classifyErr (op attempt))) (by omega)
      refine ⟨(if 1 < attempt then
          [FetchEvent.sleepBackoff ((2 : ℚ) ^ (attempt - 1) * 15)] else []) ++
          [FetchEvent.sleepCold (coldDelay rand attempt)], rest, ?_, ?_⟩
      · rw [fetchLoop_succ_none op rand maxR (m + 1) attempt le hfailk]
        dsimp only
        rw [h429] at hrest ⊢
        have hpost : postEvents maxR attempt (ApiResponse.status 429) =
            [FetchEvent.sleepRateLimit 120] := by
          simp [postEvents, hkm]
        rw [hpost, hrest]
        have hsub : attempt + 1 - 1 = attempt := by omega
        rw [hsub]
        simp [preEvents, List.append_assoc]
      · intro e he
        rcases List.mem_append.mp he with h | h
        · split at h
          · rcases List.mem_singleton.mp h with rfl
            exact fun hh => FetchEvent.noConfusion hh
          · exact absurd h (List.not_mem_nil e)
        · rcases List.mem_singleton.mp h with rfl
          exact fun hh => FetchEvent.noConfusion hh
    · have hlt : attempt < k := lt_of_le_of_ne h1 ha
      have hfail : stepResult (op attempt) = none := hfails attempt le_rfl hlt
      obtain ⟨p, rest, hpr, hp⟩ := ih (attempt + 1) (some (classifyErr (op attempt)))
        (by omega) (by omega) (fun i hi1 hi2 => hfails i (by omega) hi2)
      refine ⟨preEvents rand attempt ++ postEvents maxR attempt (op attempt) ++ p,
        rest, ?_, ?_⟩
      · simp only [fetchLoop, hfail]
        rw [List.append_assoc, List.append_assoc, hpr]
        simp [List.append_assoc]
      · intro e he
        rcases List.mem_append.mp he with h | h
        · rcases List.mem_append.mp h with h2 | h2
          · rcases mem_preEvents rand attempt h2 with h3 | h3 | h3 <;> subst h3
            · exact fun hh => FetchEvent.noConfusion hh
            · exact fun hh => FetchEvent.noConfusion hh
            · intro hh
              injection hh with hh2
              omega
          · exact mem_postEvents_ne_apiCall maxR attempt (op attempt) k h2
        · exact hp e h

/-- C7.  Corrected form: a `429` on attempt `k < maxRetries` makes the
controller sleep the long 120 s cooldown *and additionally* the next
iteration's exponential backoff (`2^k * 15` s) and cold-start jitter before
the next attempt (the cooldown replaces nothing); a `429` on the final
attempt is propagated as the wrapped last error. -/
theorem fetchFromAPI_429_cooldown :
    (∀ (op : ℕ → ApiResponse) (rand : ℕ → ℚ) (maxR k : ℕ),
        1 ≤ k → k < maxR → op k = .status 429 →
        (∀ i, 1 ≤ i → i < k → stepResult (op i) = none) →
        betweenCalls (fetchWithRetry op rand maxR).1 k =
          [FetchEvent.sleepRateLimit 120,
           FetchEvent.sleepBackoff ((2 : ℚ) ^ k * 15),
           FetchEvent.sleepCold (coldDelay rand (k + 1))]) ∧
    (∀ (op : ℕ → ApiResponse) (rand : ℕ → ℚ) (maxR : ℕ),
        1 ≤ maxR → op maxR = .status 429 →
        (∀ i, 1 ≤ i → i ≤ maxR → stepResult (op i) = none) →
        (fetchWithRetry op rand maxR).2 =
          .error (exhaustMsg maxR (some "Rate limit exceeded"))) := by
  constructor
  · intro op rand maxR k hk1 hkm h429 hfails
    obtain ⟨p, rest, hpr, hp⟩ := fetchLoop_429_reach op rand maxR k hk1 hkm h429
      maxR 1 none hk1 (by omega) hfails
    unfold fetchWithRetry betweenCalls
    rw [hpr]
    rw [dropWhile_append_of_all _ (fun e he => decide_eq_true (hp e he))]
    rw [List.dropWhile_cons]
    have hfalse : (decide (FetchEvent.apiCall k ≠ FetchEvent.apiCall k)) = false := by
      simp
    rw [hfalse]
    simp only [Bool.false_eq_true, if_false, ite_false, List.drop_succ_cons,
      List.drop_zero]
    exact takeWhile_append_of_all _
      [FetchEvent.sleepRateLimit 120,
        FetchEvent.sleepBackoff ((2 : ℚ) ^ k * 15),
        FetchEvent.sleepCold (coldDelay rand (k + 1))]
      (by
        intro a ha
        rcases List.mem_cons.mp ha with rfl | ha
        · exact decide_eq_true fun hh => FetchEvent.noConfusion hh
        rcases List.mem_cons.mp ha with rfl | ha
        · exact decide_eq_true fun hh => FetchEvent.noConfusion hh
        rcases List.mem_cons.mp ha with rfl | ha
        · exact decide_eq_true fun hh => FetchEvent.noConfusion hh
        · exact absurd ha (List.not_mem_nil a))
      (by simp)
  · intro op rand maxR hmax h429 hfails
    have hr := (fetchLoop_all_fail op rand maxR maxR 1 none
      (fun i hi1 hi2 => hfails i hi1 (by omega))).1
    have h0 : ¬ maxR = 0 := by omega
    have h1 : 1 + maxR - 1 = maxR := by omega
    unfold fetchWithRetry
    rw [hr]
    simp only [h0, h1, ite_false, if_false]
    rw [h429]
    rfl

/-- C7 witness: an operation that always answers `429` sleeps, between its
first and second call, the 120 s cooldown *followed by* the 30 s backoff
and the 3 s cold-start wait; after all 4 attempts it throws the wrapped
rate-limit error. -/
theorem fetchFromAPI_429_cooldown_witness :
    ((fun _ : ℕ => ApiResponse.status 429) 1 = ApiResponse.status 429) ∧
    betweenCalls (fetchWithRetry (fun _ => ApiResponse.status 429) (fun _ => 0) 4).1 1 =
      [FetchEvent.sleepRateLimit 120, FetchEvent.sleepBackoff 30,
       FetchEvent.sleepCold 3] ∧
    (fetchWithRetry (fun _ => ApiResponse.status 429) (fun _ => 0) 4).2 =
      .error (exhaustMsg 4 (some "Rate limit exceeded")) := by
  have h1 := fetchFromAPI_429_cooldown.1 (fun _ => ApiResponse.status 429) (fun _ => 0)
    4 1 (by omega) (by omega) rfl (fun i hi1 hi2 => absurd (by omega : (1 : ℕ) ≤ 0)
      (by omega))
  have h2 := fetchFromAPI_429_cooldown.2 (fun _ => ApiResponse.status 429) (fun _ => 0)
    4 (by omega) rfl (fun i _ _ => rfl)
  refine ⟨rfl, ?_, h2⟩
  rw [h1]
  norm_num [coldDelay]

set_option maxRecDepth 10000 in
/-- C7 counterexample: concretely, the events between the rate-limited
first call and the second call are `[cooldown 120 s, backoff 30 s,
cold-start 3 s]` — the exponential backoff *is* slept before the next
attempt, contradicting "rather than the exponential backoff delay". -/
theorem fetchFromAPI_429_backoff_slept_cex :
    betweenCalls (fetchFromAPI (fun _ => ApiResponse.status 429) (fun _ => 0)).1 1 =
      [FetchEvent.sleepRateLimit 120, FetchEvent.sleepBackoff 30,
       FetchEvent.sleepCold 3] ∧
    FetchEvent.sleepBackoff 30 ∈
      betweenCalls (fetchFromAPI (fun _ => ApiResponse.status 429) (fun _ => 0)).1 1 := by
  have htr : (fetchFromAPI (fun _ => ApiResponse.status 429) (fun _ => 0)).1 =
      [FetchEvent.sleepCold 5, FetchEvent.apiCall 1, FetchEvent.sleepRateLimit 120,
       FetchEvent.sleepBackoff 30, FetchEvent.sleepCold 3, FetchEvent.apiCall 2,
       FetchEvent.sleepRateLimit 120,
       FetchEvent.sleepBackoff 60, FetchEvent.sleepCold 3, FetchEvent.apiCall 3,
       FetchEvent.sleepRateLimit 120,
       FetchEvent.sleepBackoff 120, FetchEvent.sleepCold 3, FetchEvent.apiCall 4] := by
    norm_num [fetchFromAPI, fetchLoop, stepResult, classifyErr, preEvents, postEvents,
      coldDelay]
  rw [htr]
  constructor
  · decide
  · decide

end GTrends
